import Mathlib

/-!
# Verification of the hash-bucketing stage of the deltacat compactor

A shallow embedding of `deltacat/compute/compactor/steps/hash_bucket.py` and
proofs of the behavioural properties stated in the design specification.

Modelling conventions:
* Python values appearing in primary-key columns are modelled by `PyVal`
  (integers and strings), with `pyStr` as Python's `str(...)`.
* A `pyarrow.Table` is modelled by `PaTable`: an ordered list of named
  columns, each a list of optional values (`none` models a null cell).
* Fallible Python code (raised exceptions) is modelled by `Except HBError`.
* External collaborators whose source is not part of this tree
  (`sha1_digest` from `deltacat.utils.common`,
  `group_record_indices_by_hash_bucket` from
  `deltacat.compute.compactor.utils.primary_key_index`, the storage download
  collaborator, and the group assembler) are modelled from the specification;
  each such definition carries a `Modelled from the spec:` doc comment.
-/

/-- A dynamically-typed Python scalar held in a primary-key column.
Integers and strings suffice for the properties under study; the digest
pipeline only ever consumes a value through `str(...)`. -/
inductive PyVal where
  | int (n : Int)
  | str (s : String)
  deriving DecidableEq, Repr, Inhabited

/-- Python's `str(v)` for the modelled scalars: the decimal rendering of an
integer, the string itself for a string. -/
def pyStr : PyVal → String
  | .int n => toString n
  | .str s => s

/-- `bytes(s, "utf-8")`: the UTF-8 encoding of a string, as a byte list. -/
def utf8Bytes (s : String) : List UInt8 :=
  (s.data.map String.utf8EncodeChar).flatten

/-- `_PK_BYTES_DELIMITER = b'L6kl7u5f'` (hash_bucket.py line 21): the fixed
multi-byte delimiter joined between encoded primary-key values. -/
def PK_BYTES_DELIMITER : List UInt8 := utf8Bytes "L6kl7u5f"

/-- Modelled from the spec: `sha1_digest` (imported from
`deltacat.utils.common`, whose source is not under this tree) applies a
"cryptographic digest function (SHA-1 or equivalent fixed-output-size
digest)" to a byte string.  The claims under study depend only on the digest
being a deterministic pure function of its input with a fixed output size,
so SHA-1's internals are modelled by a deterministic 20-byte digest. -/
def sha1_digest (bs : List UInt8) : List UInt8 :=
  let h : Nat := bs.foldl (fun a b => (a * 257 + b.toNat + 1) % (2 ^ 160)) 0
  (List.range 20).map (fun i => UInt8.ofNat (h / 256 ^ i % 256))

/-- The numeric value of a digest (big-endian byte fold), used to map a
digest into a bucket index. -/
def digestToNat (d : List UInt8) : Nat :=
  d.foldl (fun a b => a * 256 + b.toNat) 0

/-- The errors surfaced by this stage.  Names follow the specification's
error taxonomy (§7) where it names the condition; the remaining
constructors model the Python exceptions the code can actually raise. -/
inductive HBError where
  /-- A primary-key column named but absent from the table
  (Python: `KeyError` from `table[pk_name]`). -/
  | InvalidSchema (name : String)
  /-- A null value found in a primary-key column by the null-free
  numpy conversion (spec §7; Python: error raised by `to_numpy()`). -/
  | MissingPrimaryKeyValue
  /-- Python `IndexError` (out-of-range list indexing). -/
  | IndexError
  /-- Python `ZeroDivisionError` (`digest % 0` for `num_buckets = 0`). -/
  | ZeroDivisionError
  /-- Python `ValueError` (e.g. `np.empty` with a negative dimension). -/
  | ValueError
  /-- Spec §7: rejection of non-positive `num_buckets` or an empty
  primary-key list before any I/O. -/
  | InvalidArgument
  /-- Spec §7: decoded table count does not match annotation count. -/
  | IntegrityError
  deriving DecidableEq, Repr

/-- `mapME f xs` models a Python `for` loop that builds a list from `xs`
left to right and propagates the first raised exception. -/
def mapME (f : α → Except HBError β) : List α → Except HBError (List β)
  | [] => .ok []
  | a :: as =>
    match f a with
    | .error e => .error e
    | .ok b =>
      match mapME f as with
      | .error e => .error e
      | .ok bs => .ok (b :: bs)

/-- `foldlME f s xs` models a Python `for` loop threading state `s` through
`xs` left to right and propagating the first raised exception. -/
def foldlME (f : σ → α → Except HBError σ) : σ → List α → Except HBError σ
  | s, [] => .ok s
  | s, a :: as =>
    match f s a with
    | .error e => .error e
    | .ok s1 => foldlME f s1 as

/-- A `pyarrow.Table`: an ordered list of named columns; a `none` cell
models a null. -/
structure PaTable where
  columns : List (String × List (Option PyVal))
  deriving DecidableEq, Repr, Inhabited

/-- The row count of a table (the length of its first column; all columns
of a well-formed table have equal length). -/
def PaTable.numRows (t : PaTable) : Nat :=
  match t.columns with
  | [] => 0
  | c :: _ => c.2.length

/-- Well-formedness of a `pyarrow.Table`: every column has the same length. -/
def PaTable.wf (t : PaTable) : Prop :=
  ∀ c ∈ t.columns, c.2.length = t.numRows

instance (t : PaTable) : Decidable t.wf :=
  inferInstanceAs (Decidable (∀ c ∈ t.columns, c.2.length = t.numRows))

/-- `table[name]`: column lookup by name; `none` models Python's
`KeyError` being raised. -/
def PaTable.getColumn (t : PaTable) (name : String) : Option (List (Option PyVal)) :=
  (t.columns.find? (fun c => c.1 == name)).map (·.2)

/-- `table.drop(names)`: the table without the named columns. -/
def PaTable.dropCols (t : PaTable) (names : List String) : PaTable :=
  ⟨t.columns.filter (fun c => !(names.contains c.1))⟩

/-- `table.take(indices)`: the sub-table holding the rows at the given
positions, in the order of `indices`. -/
def PaTable.take (t : PaTable) (indices : List Nat) : PaTable :=
  ⟨t.columns.map (fun c => (c.1, indices.map (fun i => c.2.getD i none)))⟩

/-- The null-free numpy conversion `table[pk_name].to_numpy()` that the
source relies on (hash_bucket.py line 32-33: "casting a primary key column
to numpy also ensures no nulls exist").  Modelled from the spec: a null in
the column fails the conversion with the error the spec's taxonomy names
`MissingPrimaryKeyValue`; otherwise the unwrapped values are returned. -/
def to_numpy (column : List (Option PyVal)) : Except HBError (List PyVal) :=
  mapME (fun cell =>
    match cell with
    | some v => .ok v
    | none => .error HBError.MissingPrimaryKeyValue) column

/-- The first loop of `group_by_pk_hash_bucket` (lines 30-34): look up each
primary-key column and convert it null-free, collecting
`all_pk_column_fields` in primary-key order. -/
def extract_pk_columns (table : PaTable) (primary_keys : List String) :
    Except HBError (List (List PyVal)) :=
  mapME (fun pk_name =>
    match table.getColumn pk_name with
    | none => .error (HBError.InvalidSchema pk_name)
    | some column_fields => to_numpy column_fields) primary_keys

/-- `hash_pk_bytes_generator` (lines 59-66): for each row index in
`range(len(all_column_fields[0]))`, take each column's value at that index,
encode `str(value)` as UTF-8, join the per-column byte strings with
`_PK_BYTES_DELIMITER`, and yield the SHA-1 digest of the concatenation.
An empty column list raises `IndexError` at `all_column_fields[0]`, and an
out-of-range row index raises `IndexError`, exactly as in Python. -/
def hash_pk_bytes_generator (all_column_fields : List (List PyVal)) :
    Except HBError (List (List UInt8)) :=
  match all_column_fields with
  | [] => .error HBError.IndexError
  | c0 :: _ =>
    mapME (fun field_index =>
      match mapME (fun column_fields =>
          match column_fields[field_index]? with
          | some v => .ok (utf8Bytes (pyStr v))
          | none => .error HBError.IndexError) all_column_fields with
      | .error e => .error e
      | .ok bytes_to_join =>
        .ok (sha1_digest (List.intercalate PK_BYTES_DELIMITER bytes_to_join)))
      (List.range c0.length)

/-- Modelled from the spec: the bucket of one digest — "bucket assignment
is a pure function of the Primary-Key Digest modulo `num_buckets`" (§3). -/
def pk_digest_to_hash_bucket (digest : List UInt8) (num_buckets : Nat) : Nat :=
  digestToNat digest % num_buckets

/-- Modelled from the spec: `group_record_indices_by_hash_bucket`
(imported from `deltacat.compute.compactor.utils.primary_key_index`, whose
source is not under this tree) — "delegate to the external bucket-index
grouping collaborator to obtain, for each bucket in `[0, num_buckets)`,
the set of row positions assigned to it (bucket = digest value mapped
deterministically into `[0, num_buckets)`)" (§4.2), here digest modulo
`num_buckets`, which Python cannot compute for `num_buckets = 0`
(`ZeroDivisionError`).  Row positions within one bucket are listed in
increasing order.  `bucketIndicesOf` is the collaborator's per-bucket
index list. -/
def bucketIndicesOf (hashes : List (List UInt8)) (num_buckets b : Nat) :
    List Nat :=
  (List.range hashes.length).filter
    (fun i => pk_digest_to_hash_bucket (hashes.getD i []) num_buckets == b)

/-- Modelled from the spec: the grouping collaborator's full result, one
index list per bucket in `[0, num_buckets)`; see `bucketIndicesOf`. -/
def group_record_indices_by_hash_bucket (hashes : List (List UInt8))
    (num_buckets : Nat) : Except HBError (List (List Nat)) :=
  if num_buckets = 0 then .error HBError.ZeroDivisionError
  else
    .ok ((List.range num_buckets).map (fun b =>
      bucketIndicesOf hashes num_buckets b))

/-- One bucketed sub-table produced by the partitioner (lines 52-55):
the source table's non-primary-key columns taken at the bucket's row
positions, together with the appended primary-key-hash column
(`sc.append_pk_hash_column`) and the appended original-row-position column
(`sc.append_record_idx_col`), modelled as separate fields. -/
structure SubTable where
  table : PaTable
  pkHash : List (List UInt8)
  recordIdx : List Nat
  deriving DecidableEq, Repr, Inhabited

/-- The row count of a bucketed sub-table.  The physical sub-table always
carries the record-index column, so its row count is that column's length. -/
def SubTable.numRows (st : SubTable) : Nat := st.recordIdx.length

/-- The partitioner's per-bucket output slot (lines 49-55): `None` when the
bucket's index list is empty, otherwise the materialized sub-table
(`table.take(indices)` with the pk-hash and record-index columns). -/
def mkSlot (dropped : PaTable) (hashes : List (List UInt8))
    (indices : List Nat) : Option SubTable :=
  if indices.isEmpty then none
  else some { table := dropped.take indices
              pkHash := indices.map (fun i => hashes.getD i [])
              recordIdx := indices }

/-- `group_by_pk_hash_bucket` (lines 24-56): compute the per-row primary-key
digests, drop the primary-key columns, group row positions by hash bucket,
and materialize one sub-table per non-empty bucket; slot `b` of the result
is `none` (numpy object arrays are `None`-filled) when no row maps to `b`.
`num_buckets` is a Python int; this stage performs no validation of it, and
the claims under study only exercise non-negative values, so it is taken
as a `Nat` here. -/
def group_by_pk_hash_bucket (table : PaTable) (num_buckets : Nat)
    (primary_keys : List String) : Except HBError (List (Option SubTable)) :=
  match extract_pk_columns table primary_keys with
  | .error e => .error e
  | .ok all_pk_column_fields =>
    match hash_pk_bytes_generator all_pk_column_fields with
    | .error e => .error e
    | .ok hashes =>
      let dropped := table.dropCols primary_keys
      match group_record_indices_by_hash_bucket hashes num_buckets with
      | .error e => .error e
      | .ok hash_bucket_to_indices =>
        .ok (hash_bucket_to_indices.map (mkSlot dropped hashes))

/-- The type of one delta (spec §3). -/
inductive DeltaType where
  | INSERT
  | UPDATE
  | DELETE
  deriving DecidableEq, Repr, Inhabited

/-- One delta-manifest annotation: the provenance of one physical file
(spec §3), read through `dma.get_annotation_stream_position` /
`get_annotation_file_index` / `get_annotation_delta_type`. -/
structure DeltaManifestAnnotation where
  stream_position : Int
  file_index : Int
  delta_type : DeltaType
  deriving DecidableEq, Repr, Inhabited

/-- One annotated delta manifest, as far as this stage reads it:
`dma.get_annotations` returns its annotation list. -/
structure AnnotatedDeltaManifest where
  annotations : List DeltaManifestAnnotation
  deriving DecidableEq, Repr, Inhabited

/-- A Delta File Envelope `{stream_position, file_index, delta_type, table}`
(spec §3), built by `delta_file_envelope.of` and read through its getters.
The table payload is a `PaTable` for envelopes built by the reader and a
`SubTable` for the bucketed envelopes built by the aggregator. -/
structure DeltaFileEnvelope (τ : Type) where
  stream_position : Int
  file_index : Int
  delta_type : DeltaType
  table : τ
  deriving DecidableEq, Repr, Inhabited

/-- The storage download collaborator
`deltacat_storage.download_delta_manifest` (spec §6): one decoded table per
downloaded file, given the manifest, the full column-name list and the
projected columns to read.  Injected as a function parameter. -/
def DownloadFn : Type :=
  AnnotatedDeltaManifest → List String → List String → List PaTable

/-- `read_delta_file_envelopes` (lines 111-156): download each manifest's
tables (projected to primary-key plus sort-key columns), then zip each
manifest's tables with its annotations into Delta File Envelopes.

The source guards the zip with
`assert(len(tables) == len(annotations), f"Unexpected Error: ...")`
(lines 138-141): the assert argument is a parenthesized two-element tuple,
which is always truthy in Python, so the assertion can never fail and no
length check takes place — the model therefore performs none.  The
envelope loop runs `for i in range(len(tables))` and indexes
`annotations[i]`, which raises `IndexError` when there are more tables
than annotations, and silently ignores surplus annotations when there are
fewer.  An empty manifest list returns `None`. -/
def read_delta_file_envelopes (download : DownloadFn)
    (annotated_delta_manifests : List AnnotatedDeltaManifest)
    (column_names primary_keys sort_key_names : List String) :
    Except HBError (Option (List (DeltaFileEnvelope PaTable))) :=
  let columns_to_read := primary_keys ++ sort_key_names
  let tables_and_annotations :=
    annotated_delta_manifests.map (fun adm =>
      (download adm column_names columns_to_read, adm.annotations))
  if tables_and_annotations.isEmpty then .ok none
  else
    match mapME (fun (ta : List PaTable × List DeltaManifestAnnotation) =>
        mapME (fun i =>
          match ta.2[i]? with
          | none => .error HBError.IndexError
          | some ann =>
            .ok { stream_position := ann.stream_position
                  file_index := ann.file_index
                  delta_type := ann.delta_type
                  table := ta.1.getD i ⟨[]⟩ : DeltaFileEnvelope PaTable })
          (List.range ta.1.length)) tables_and_annotations with
    | .error e => .error e
    | .ok envss => .ok (some envss.flatten)

/-- `delta_file_envelope.of(get_stream_position(dfe), get_file_index(dfe),
get_delta_type(dfe), table)` (lines 102-107): the bucketed envelope copies
the source envelope's provenance fields and carries the bucket sub-table. -/
def mkSubEnvelope (dfe : DeltaFileEnvelope PaTable) (st : SubTable) :
    DeltaFileEnvelope SubTable :=
  { stream_position := dfe.stream_position
    file_index := dfe.file_index
    delta_type := dfe.delta_type
    table := st }

/-- `np.empty([n], dtype="object")` (line 90): a `None`-filled object array
of length `n`; a negative dimension raises `ValueError`. -/
def np_empty_object (n : Int) : Except HBError (List (Option α)) :=
  if n < 0 then .error HBError.ValueError
  else .ok (List.replicate n.toNat none)

/-- The body of the aggregator's `for dfe in delta_file_envelopes` loop
(lines 91-107): partition the envelope's table, then for every populated
bucket append a provenance-copying sub-envelope to that bucket's slot
(creating the list on first use).  The accumulator array and the
partitioner's output both have length `num_hash_buckets`, so the indexed
loop `for hash_bucket in range(len(hash_bucket_to_table))` is the
slot-wise combination of the two. -/
def hash_bucket_step (num_hash_buckets : Nat) (primary_keys : List String)
    (acc : List (Option (List (DeltaFileEnvelope SubTable))))
    (dfe : DeltaFileEnvelope PaTable) :
    Except HBError (List (Option (List (DeltaFileEnvelope SubTable)))) :=
  match group_by_pk_hash_bucket dfe.table num_hash_buckets primary_keys with
  | .error e => .error e
  | .ok hash_bucket_to_table =>
    .ok (acc.zipWith (fun slot subTable? =>
      match subTable? with
      | none => slot
      | some st => some (slot.getD [] ++ [mkSubEnvelope dfe st]))
      hash_bucket_to_table)

/-- `group_file_records_by_pk_hash_bucket` (lines 69-108): read the delta
file envelopes, return `None` when the reader found no manifests, and
otherwise fold every envelope's bucketed sub-tables into the
`None`-initialized per-bucket accumulator array. -/
def group_file_records_by_pk_hash_bucket (download : DownloadFn)
    (annotated_delta_manifests : List AnnotatedDeltaManifest)
    (num_hash_buckets : Int)
    (column_names primary_keys sort_key_names : List String) :
    Except HBError (Option (List (Option (List (DeltaFileEnvelope SubTable))))) :=
  match read_delta_file_envelopes download annotated_delta_manifests
      column_names primary_keys sort_key_names with
  | .error e => .error e
  | .ok none => .ok none
  | .ok (some delta_file_envelopes) =>
    match np_empty_object num_hash_buckets with
    | .error e => .error e
    | .ok init =>
      match foldlME (hash_bucket_step num_hash_buckets.toNat primary_keys)
          init delta_file_envelopes with
      | .error e => .error e
      | .ok hb_to_delta_file_envelopes => .ok (some hb_to_delta_file_envelopes)

/-- The Group Assembler collaborator `group_hash_bucket_indices`
(spec §6), injected as a function parameter: it receives the per-bucket
envelope array (possibly the `None` no-data marker), `num_buckets` and
`num_groups`, and returns the placement index and the object references. -/
def AssemblerFn (α β : Type) : Type :=
  Option (List (Option (List (DeltaFileEnvelope SubTable)))) → Int → Int → α × β

/-- The task entry point `hash_bucket` (lines 160-185): extract the
sort-key names from the sort-key specifications, run the aggregator, and
hand its result to the group assembler; the assembler's pair is returned.
No validation of `num_buckets`, `num_groups` or `primary_keys` occurs. -/
def hash_bucket {α β : Type} (group_hash_bucket_indices : AssemblerFn α β)
    (download : DownloadFn)
    (annotated_delta_manifests : List AnnotatedDeltaManifest)
    (column_names primary_keys : List String)
    (sort_keys : List (String × String)) (num_buckets num_groups : Int) :
    Except HBError (α × β) :=
  let sort_key_names := sort_keys.map (fun key => key.1)
  match group_file_records_by_pk_hash_bucket download
      annotated_delta_manifests num_buckets column_names primary_keys
      sort_key_names with
  | .error e => .error e
  | .ok delta_file_envelope_groups =>
    .ok (group_hash_bucket_indices delta_file_envelope_groups
          num_buckets num_groups)

/-! ## Derived notions used to state the verified properties -/

/-- The digest the generator computes for row `i` of the extracted
primary-key columns (the body of `hash_pk_bytes_generator`'s loop,
with in-range indexing). -/
def rowDigest (all_column_fields : List (List PyVal)) (i : Nat) :
    List UInt8 :=
  sha1_digest (List.intercalate PK_BYTES_DELIMITER
    (all_column_fields.map (fun column_fields =>
      utf8Bytes (pyStr (column_fields.getD i (PyVal.str ""))))))

/-- The tuple of `str(...)` renderings of one row's primary-key values, in
primary-key order; `none` marks a cell that is null or out of range. -/
def pkStrTuple (t : PaTable) (primary_keys : List String) (i : Nat) :
    List (Option String) :=
  primary_keys.map (fun pk =>
    (((t.getColumn pk).getD []).getD i none).map pyStr)

/-- The digest determined by a row's tuple of primary-key strings alone. -/
def tupleDigest (strs : List (Option String)) : List UInt8 :=
  sha1_digest (List.intercalate PK_BYTES_DELIMITER
    (strs.map (fun s => utf8Bytes (s.getD ""))))

/-- Row `i` of the partitioned table was assigned to bucket `b`:
slot `b` of the partitioner's output holds a sub-table whose
original-row-position column contains `i`. -/
def rowBucketIn (out : List (Option SubTable)) (i b : Nat) : Prop :=
  ∃ st, out.getD b none = some st ∧ i ∈ st.recordIdx

/-- The row count contributed by one output slot: `0` for an absent
bucket, the sub-table's row count otherwise. -/
def bucketRows : Option SubTable → Nat
  | none => 0
  | some st => st.numRows

/-- The sub-envelope one input envelope contributes to bucket `b`
(if its table partitions successfully and populates that bucket). -/
def contribOf (num_hash_buckets : Nat) (primary_keys : List String)
    (b : Nat) (dfe : DeltaFileEnvelope PaTable) :
    Option (DeltaFileEnvelope SubTable) :=
  match group_by_pk_hash_bucket dfe.table num_hash_buckets primary_keys with
  | .error _ => none
  | .ok slots => (slots.getD b none).map (mkSubEnvelope dfe)

/-- An accumulated bucket slot: absent (`None`) when no envelope
contributed, otherwise the non-empty contribution list. -/
def listToSlot (l : List α) : Option (List α) :=
  if l.isEmpty then none else some l

/-- Appending a batch of contributions to an optional slot: an empty batch
leaves the slot untouched, a non-empty batch creates the list on first
use and appends. -/
def appendOpt (slot : Option (List α)) (l : List α) : Option (List α) :=
  match l with
  | [] => slot
  | _ => some (slot.getD [] ++ l)

/-- Unwrap a success value (used only to spell out concrete runs). -/
def okOr (e : Except HBError α) (dflt : α) : α :=
  match e with
  | .ok a => a
  | .error _ => dflt

/-! ## Concrete fixtures for the evaluated runs -/

/-- A three-row table with primary-key column `k` = `["a", "b", "a"]`. -/
def tblA : PaTable :=
  ⟨[("k", [some (PyVal.str "a"), some (PyVal.str "b"), some (PyVal.str "a")]),
    ("v", [some (PyVal.int 7), some (PyVal.int 8), some (PyVal.int 9)])]⟩

/-- A one-row table whose primary key `"a"` equals row 0 of `tblA`. -/
def tblB : PaTable :=
  ⟨[("k", [some (PyVal.str "a")]), ("v", [some (PyVal.int 1)])]⟩

/-- A table with a null in its primary-key column. -/
def tblNull : PaTable :=
  ⟨[("k", [some (PyVal.int 1), none])]⟩

/-- A one-row table whose primary key is the integer `1`. -/
def tblInt : PaTable := ⟨[("k", [some (PyVal.int 1)])]⟩

/-- A one-row table whose primary key is the string `"1"`. -/
def tblStr : PaTable := ⟨[("k", [some (PyVal.str "1")])]⟩

/-- Annotation A: `stream_position = 10`. -/
def annA : DeltaManifestAnnotation := ⟨10, 0, DeltaType.INSERT⟩

/-- Annotation B: `stream_position = 20`. -/
def annB : DeltaManifestAnnotation := ⟨20, 1, DeltaType.INSERT⟩

/-- One annotated manifest carrying annotations A and B. -/
def admAB : AnnotatedDeltaManifest := ⟨[annA, annB]⟩

/-- A storage collaborator returning two tables for the manifest,
positionally aligned with annotations A and B. -/
def dlAB : DownloadFn := fun _ _ _ => [tblA, tblB]

/-- A storage collaborator returning a single table — one fewer than
`admAB`'s two annotations (the desynchronized case). -/
def dlOneTable : DownloadFn := fun _ _ _ => [tblB]

/-- A stub group assembler that ignores its inputs. -/
def stubAssembler : AssemblerFn Unit Unit := fun _ _ _ => ((), ())

/-- The partitioner's output for `tblA` with 4 buckets. -/
def outA : List (Option SubTable) :=
  okOr (group_by_pk_hash_bucket tblA 4 ["k"]) []

/-- The partitioner's output for `tblB` with 4 buckets. -/
def outB : List (Option SubTable) :=
  okOr (group_by_pk_hash_bucket tblB 4 ["k"]) []

/-- The envelopes read from `admAB` through `dlAB`. -/
def dfesAB : List (DeltaFileEnvelope PaTable) :=
  (okOr (read_delta_file_envelopes dlAB [admAB] ["k", "v"] ["k"] []) none).getD []

/-- The aggregator's output for `admAB` through `dlAB` with 4 buckets. -/
def outAB : List (Option (List (DeltaFileEnvelope SubTable))) :=
  (okOr (group_file_records_by_pk_hash_bucket dlAB [admAB] 4 ["k", "v"] ["k"] [])
    none).getD []

/-! ## Infrastructure lemmas -/

theorem mapME_ok_forall₂ {f : α → Except HBError β} :
    ∀ {xs : List α} {ys : List β}, mapME f xs = .ok ys →
      List.Forall₂ (fun a b => f a = .ok b) xs ys := by
  intro xs
  induction xs with
  | nil =>
    intro ys h
    simp only [mapME] at h
    cases h
    exact List.Forall₂.nil
  | cons a as ih =>
    intro ys h
    simp only [mapME] at h
    cases hfa : f a with
    | error e => rw [hfa] at h; cases h
    | ok b =>
      rw [hfa] at h
      cases hrest : mapME f as with
      | error e => rw [hrest] at h; cases h
      | ok bs =>
        rw [hrest] at h
        cases h
        exact List.Forall₂.cons hfa (ih hrest)

theorem mapME_ok_length {f : α → Except HBError β} {xs : List α}
    {ys : List β} (h : mapME f xs = .ok ys) : ys.length = xs.length :=
  (List.Forall₂.length_eq (mapME_ok_forall₂ h)).symm

theorem mapME_ok_of_forall {f : α → Except HBError β} {g : α → β} :
    ∀ {xs : List α}, (∀ a ∈ xs, f a = .ok (g a)) →
      mapME f xs = .ok (xs.map g) := by
  intro xs
  induction xs with
  | nil => intro _; rfl
  | cons a as ih =>
    intro h
    simp only [mapME, h a (List.mem_cons_self a as),
      ih (fun x hx => h x (List.mem_cons_of_mem a hx)), List.map_cons]

theorem mapME_congr {f g : α → Except HBError β} :
    ∀ {xs : List α}, (∀ a ∈ xs, f a = g a) → mapME f xs = mapME g xs := by
  intro xs
  induction xs with
  | nil => intro _; rfl
  | cons a as ih =>
    intro h
    simp only [mapME, h a (List.mem_cons_self a as),
      ih (fun x hx => h x (List.mem_cons_of_mem a hx))]

theorem to_numpy_ok_of_nonull :
    ∀ {column : List (Option PyVal)} {vals : List PyVal},
      to_numpy column = .ok vals → column = vals.map some := by
  intro column
  induction column with
  | nil =>
    intro vals h
    simp only [to_numpy, mapME] at h
    cases h
    rfl
  | cons c cs ih =>
    intro vals h
    simp only [to_numpy, mapME] at h ih
    cases c with
    | none => cases h
    | some v =>
      cases hrest : mapME (fun cell => match cell with
          | some v => Except.ok v
          | none => Except.error HBError.MissingPrimaryKeyValue) cs with
      | error e => rw [hrest] at h; cases h
      | ok bs =>
        rw [hrest] at h
        cases h
        simp [ih hrest]

theorem to_numpy_error_of_null {column : List (Option PyVal)}
    (h : none ∈ column) :
    to_numpy column = .error HBError.MissingPrimaryKeyValue := by
  induction column with
  | nil => cases h
  | cons c cs ih =>
    cases c with
    | none => rfl
    | some v =>
      have hcs : none ∈ cs := by
        cases h with
        | tail _ h2 => exact h2
      simp only [to_numpy, mapME] at ih ⊢
      rw [ih hcs]

theorem to_numpy_ok_length {column : List (Option PyVal)} {vals : List PyVal}
    (h : to_numpy column = .ok vals) : vals.length = column.length :=
  mapME_ok_length h

theorem to_numpy_ok_of_not_null {column : List (Option PyVal)}
    (h : (none : Option PyVal) ∉ column) :
    to_numpy column = .ok (column.map (fun cell => cell.getD (PyVal.str ""))) := by
  apply mapME_ok_of_forall
  intro cell hc
  cases cell with
  | some v => rfl
  | none => exact absurd hc h

theorem forall₂_mem_right {R : α → β → Prop} :
    ∀ {xs : List α} {ys : List β}, List.Forall₂ R xs ys →
      ∀ b ∈ ys, ∃ a ∈ xs, R a b := by
  intro xs ys h
  induction h with
  | nil => intro b hb; cases hb
  | @cons x y xs2 ys2 hxy _ ih =>
    intro b hb
    cases hb with
    | head => exact ⟨x, List.mem_cons_self x xs2, hxy⟩
    | tail _ hb2 =>
      obtain ⟨a2, ha2, hr⟩ := ih b hb2
      exact ⟨a2, List.mem_cons_of_mem x ha2, hr⟩

theorem getColumn_mem {t : PaTable} {name : String}
    {c : List (Option PyVal)} (h : t.getColumn name = some c) :
    ∃ nm, (nm, c) ∈ t.columns := by
  unfold PaTable.getColumn at h
  cases hf : t.columns.find? (fun col => col.1 == name) with
  | none => rw [hf] at h; cases h
  | some p =>
    rw [hf] at h
    cases h
    exact ⟨p.1, List.mem_of_find?_eq_some hf⟩

theorem getColumn_length {t : PaTable} {name : String}
    {c : List (Option PyVal)} (hwf : t.wf) (h : t.getColumn name = some c) :
    c.length = t.numRows := by
  obtain ⟨nm, hmem⟩ := getColumn_mem h
  exact hwf (nm, c) hmem

theorem extract_ok_forall₂ {t : PaTable} {pks : List String}
    {all : List (List PyVal)} (h : extract_pk_columns t pks = .ok all) :
    List.Forall₂
      (fun pk col => ∃ c, t.getColumn pk = some c ∧ to_numpy c = .ok col)
      pks all := by
  refine List.Forall₂.imp ?_ (mapME_ok_forall₂ h)
  intro pk col hpc
  cases hgc : t.getColumn pk with
  | none => rw [hgc] at hpc; cases hpc
  | some c =>
    rw [hgc] at hpc
    exact ⟨c, rfl, hpc⟩

theorem extract_cols_length {t : PaTable} {pks : List String}
    {all : List (List PyVal)} (hwf : t.wf)
    (h : extract_pk_columns t pks = .ok all) :
    ∀ col ∈ all, col.length = t.numRows := by
  intro col hcol
  obtain ⟨pk, _, c, hgc, hnp⟩ := forall₂_mem_right (extract_ok_forall₂ h) col hcol
  rw [to_numpy_ok_length hnp]
  exact getColumn_length hwf hgc

theorem extract_error_null {t : PaTable} :
    ∀ {pks : List String},
      (∀ pk ∈ pks, ∃ c, t.getColumn pk = some c) →
      (∃ pk ∈ pks, ∃ c, t.getColumn pk = some c ∧ (none : Option PyVal) ∈ c) →
      extract_pk_columns t pks = .error HBError.MissingPrimaryKeyValue := by
  intro pks
  induction pks with
  | nil =>
    intro _ hnull
    obtain ⟨pk, hpk, _⟩ := hnull
    cases hpk
  | cons p ps ih =>
    intro hcols hnull
    obtain ⟨c, hgc⟩ := hcols p (List.mem_cons_self p ps)
    by_cases hm : (none : Option PyVal) ∈ c
    · simp only [extract_pk_columns, mapME, hgc, to_numpy_error_of_null hm]
    · have hrest : extract_pk_columns t ps = .error HBError.MissingPrimaryKeyValue := by
        apply ih
        · intro pk hpk
          exact hcols pk (List.mem_cons_of_mem p hpk)
        · obtain ⟨pk, hpk, c2, hgc2, hm2⟩ := hnull
          cases hpk with
          | head =>
            rw [hgc] at hgc2
            cases hgc2
            exact absurd hm2 hm
          | tail _ hpk2 => exact ⟨pk, hpk2, c2, hgc2, hm2⟩
      simp only [extract_pk_columns, mapME, hgc, to_numpy_ok_of_not_null hm] at hrest ⊢
      rw [hrest]

theorem getD_map_range {f : Nat → α} {n b : Nat} {d : α} :
    ((List.range n).map f).getD b d = if b < n then f b else d := by
  rcases Nat.lt_or_ge b n with hb | hb
  · simp [List.getD_eq_getElem?_getD, List.getElem?_map, List.getElem?_range, hb]
  · rw [List.getD_eq_getElem?_getD, List.getElem?_eq_none, if_neg (Nat.not_lt.mpr hb)]
    · rfl
    · simpa using hb

theorem getElem?_of_lt {l : List α} {i : Nat} {d : α} (h : i < l.length) :
    l[i]? = some (l.getD i d) := by
  rw [List.getD_eq_getElem?_getD, List.getElem?_eq_getElem h]
  rfl

theorem map_some_getD {l : List α} {i : Nat} {d : α} (h : i < l.length) :
    (l.map some).getD i none = some (l.getD i d) := by
  rw [List.getD_eq_getElem?_getD, List.getElem?_map, getElem?_of_lt (d := d) h]
  rfl

theorem hash_generator_rows {all : List (List PyVal)} {m : Nat}
    (h0 : all ≠ []) (hlen : ∀ c ∈ all, c.length = m) :
    hash_pk_bytes_generator all =
      .ok ((List.range m).map (fun i => rowDigest all i)) := by
  match all, h0 with
  | c0 :: rest, _ =>
    have hc0 : c0.length = m := hlen c0 (List.mem_cons_self c0 rest)
    simp only [hash_pk_bytes_generator, hc0]
    apply mapME_ok_of_forall
    intro i hi
    have him : i < m := List.mem_range.mp hi
    have hinner : mapME (fun column_fields =>
        match column_fields[i]? with
        | some v => .ok (utf8Bytes (pyStr v))
        | none => .error HBError.IndexError) (c0 :: rest) =
        .ok ((c0 :: rest).map (fun column_fields =>
          utf8Bytes (pyStr (column_fields.getD i (PyVal.str ""))))) := by
      apply mapME_ok_of_forall
      intro c hc
      rw [getElem?_of_lt (d := PyVal.str "") (by rw [hlen c hc]; exact him)]
    rw [hinner]
    rfl

theorem group_by_ok_elim {t : PaTable} {n : Nat} {pks : List String}
    {out : List (Option SubTable)}
    (h : group_by_pk_hash_bucket t n pks = .ok out) :
    ∃ all hashes, extract_pk_columns t pks = .ok all ∧
      hash_pk_bytes_generator all = .ok hashes ∧ n ≠ 0 ∧
      out = (List.range n).map (fun b =>
        mkSlot (t.dropCols pks) hashes (bucketIndicesOf hashes n b)) := by
  unfold group_by_pk_hash_bucket at h
  cases hex : extract_pk_columns t pks with
  | error e => rw [hex] at h; cases h
  | ok all =>
    rw [hex] at h
    dsimp only at h
    cases hgen : hash_pk_bytes_generator all with
    | error e => rw [hgen] at h; cases h
    | ok hashes =>
      rw [hgen] at h
      dsimp only at h
      unfold group_record_indices_by_hash_bucket at h
      by_cases hn : n = 0
      · rw [if_pos hn] at h; cases h
      · rw [if_neg hn] at h
        dsimp only at h
        cases h
        exact ⟨all, hashes, rfl, hgen, hn, by rw [List.map_map]; rfl⟩

theorem group_by_ok_length {t : PaTable} {n : Nat} {pks : List String}
    {out : List (Option SubTable)}
    (h : group_by_pk_hash_bucket t n pks = .ok out) : out.length = n := by
  obtain ⟨_, _, _, _, _, hout⟩ := group_by_ok_elim h
  simp [hout]

theorem hashes_length_eq_numRows {t : PaTable} {pks : List String}
    {all : List (List PyVal)} {hashes : List (List UInt8)}
    (hwf : t.wf) (hpk : pks ≠ [])
    (hex : extract_pk_columns t pks = .ok all)
    (hgen : hash_pk_bytes_generator all = .ok hashes) :
    hashes.length = t.numRows := by
  have hall : all ≠ [] := by
    intro hnil
    subst hnil
    cases (mapME_ok_forall₂ hex) with
    | nil => exact hpk rfl
  have hlen := extract_cols_length hwf hex
  rw [hash_generator_rows hall hlen] at hgen
  cases hgen
  simp

theorem pkStrTuple_of_extract {t : PaTable} {pks : List String}
    {all : List (List PyVal)} {i : Nat} (hwf : t.wf)
    (hex : extract_pk_columns t pks = .ok all) (hi : i < t.numRows) :
    pkStrTuple t pks i =
      all.map (fun col => some (pyStr (col.getD i (PyVal.str "")))) := by
  have h2 := extract_ok_forall₂ hex
  clear hex
  induction h2 with
  | nil => rfl
  | @cons pk col pks2 all2 hpc _ ih =>
    obtain ⟨c, hgc, hnp⟩ := hpc
    have hceq : c = col.map some := to_numpy_ok_of_nonull hnp
    have hclen : col.length = t.numRows := by
      rw [to_numpy_ok_length hnp]
      exact getColumn_length hwf hgc
    simp only [pkStrTuple, List.map_cons] at ih ⊢
    rw [ih]
    congr 1
    rw [hgc]
    simp only [Option.getD_some, hceq]
    rw [map_some_getD (d := PyVal.str "") (by rw [hclen]; exact hi)]
    rfl

theorem tupleDigest_pkStrTuple {t : PaTable} {pks : List String}
    {all : List (List PyVal)} {i : Nat} (hwf : t.wf)
    (hex : extract_pk_columns t pks = .ok all) (hi : i < t.numRows) :
    tupleDigest (pkStrTuple t pks i) = rowDigest all i := by
  rw [pkStrTuple_of_extract hwf hex hi]
  simp only [tupleDigest, rowDigest, List.map_map]
  rfl

theorem mkSlot_mem_iff {dropped : PaTable} {hashes : List (List UInt8)}
    {indices : List Nat} {i : Nat} :
    (∃ st, mkSlot dropped hashes indices = some st ∧ i ∈ st.recordIdx) ↔
      i ∈ indices := by
  unfold mkSlot
  by_cases he : indices.isEmpty
  · rw [if_pos he]
    rw [List.isEmpty_iff] at he
    subst he
    simp
  · rw [if_neg he]
    constructor
    · rintro ⟨st, hst, hmem⟩
      cases hst
      exact hmem
    · intro hmem
      exact ⟨_, rfl, hmem⟩

theorem mem_bucketIndicesOf {hashes : List (List UInt8)} {n b i : Nat} :
    i ∈ bucketIndicesOf hashes n b ↔
      i < hashes.length ∧ pk_digest_to_hash_bucket (hashes.getD i []) n = b := by
  simp [bucketIndicesOf, List.mem_filter, List.mem_range]

theorem rowBucketIn_iff {t : PaTable} {n : Nat} {pks : List String}
    {out : List (Option SubTable)} {i : Nat}
    (hwf : t.wf) (hpk : pks ≠ [])
    (h : group_by_pk_hash_bucket t n pks = .ok out)
    (hi : i < t.numRows) (b : Nat) :
    rowBucketIn out i b ↔
      b < n ∧
        pk_digest_to_hash_bucket (tupleDigest (pkStrTuple t pks i)) n = b := by
  obtain ⟨all, hashes, hex, hgen, hn, hout⟩ := group_by_ok_elim h
  have hlen : hashes.length = t.numRows :=
    hashes_length_eq_numRows hwf hpk hex hgen
  have hall : all ≠ [] := by
    intro hnil
    subst hnil
    cases (mapME_ok_forall₂ hex) with
    | nil => exact hpk rfl
  have hrowd : hashes.getD i [] = rowDigest all i := by
    rw [hash_generator_rows hall (extract_cols_length hwf hex)] at hgen
    cases hgen
    rw [getD_map_range, if_pos hi]
  subst hout
  unfold rowBucketIn
  rw [getD_map_range]
  by_cases hb : b < n
  · rw [if_pos hb]
    rw [mkSlot_mem_iff, mem_bucketIndicesOf, hrowd,
      tupleDigest_pkStrTuple hwf hex hi]
    constructor
    · rintro ⟨_, hbk⟩
      exact ⟨hb, hbk⟩
    · rintro ⟨_, hbk⟩
      exact ⟨by rw [hlen]; exact hi, hbk⟩
  · rw [if_neg hb]
    constructor
    · rintro ⟨st, hst, _⟩
      cases hst
    · rintro ⟨hb2, _⟩
      exact absurd hb2 hb

theorem list_sum_map_add (l : List α) (f g : α → Nat) :
    (l.map (fun a => f a + g a)).sum = (l.map f).sum + (l.map g).sum := by
  induction l with
  | nil => rfl
  | cons a as ih =>
    simp only [List.map_cons, List.sum_cons, ih]
    omega

theorem sum_range_single {n x k : Nat} (hx : x < n) :
    ((List.range n).map (fun b => if x == b then k else 0)).sum = k := by
  induction n with
  | zero => cases hx
  | succ n ih =>
    rw [List.range_succ, List.map_append, List.sum_append]
    by_cases h : x = n
    · subst h
      have hz : ((List.range x).map (fun b => if x == b then k else 0)).sum = 0 := by
        apply List.sum_eq_zero
        intro y hy
        obtain ⟨b, hb, rfl⟩ := List.mem_map.mp hy
        have hne : x ≠ b := Nat.ne_of_gt (List.mem_range.mp hb)
        simp [hne]
      rw [hz]
      simp
    · have hx2 : x < n := Nat.lt_of_le_of_ne (Nat.le_of_lt_succ hx) h
      rw [ih hx2]
      simp [h]

theorem count_partition {n : Nat} {f : Nat → Nat} :
    ∀ {m : Nat}, (∀ i, i < m → f i < n) →
      ((List.range n).map
        (fun b => ((List.range m).filter (fun i => f i == b)).length)).sum = m := by
  intro m
  induction m with
  | zero =>
    intro _
    apply List.sum_eq_zero
    intro y hy
    obtain ⟨b, _, rfl⟩ := List.mem_map.mp hy
    simp
  | succ m ih =>
    intro hf
    have hsplit : ∀ b ∈ List.range n,
        ((List.range (m + 1)).filter (fun i => f i == b)).length =
          ((List.range m).filter (fun i => f i == b)).length +
            (if f m == b then 1 else 0) := by
      intro b _
      rw [List.range_succ, List.filter_append, List.length_append,
        List.filter_singleton]
      by_cases hb : f m = b
      · simp [hb]
      · have hbeq : (f m == b) = false := beq_eq_false_iff_ne.mpr hb
        simp [hbeq]
    rw [List.map_congr_left hsplit, list_sum_map_add,
      ih (fun i hi => hf i (Nat.lt_succ_of_lt hi)),
      sum_range_single (hf m (Nat.lt_succ_self m))]

theorem zipWith_getD {f : α → β → γ} {as : List α} {bs : List β} {b : Nat}
    {x : α} {y : β} {z : γ} (hlen : as.length = bs.length)
    (hb : b < as.length) :
    (List.zipWith f as bs).getD b z = f (as.getD b x) (bs.getD b y) := by
  have hb2 : b < bs.length := hlen ▸ hb
  rw [List.getD_eq_getElem?_getD, List.getElem?_zipWith,
    List.getElem?_eq_getElem hb, List.getElem?_eq_getElem hb2,
    List.getD_eq_getElem?_getD, List.getD_eq_getElem?_getD,
    List.getElem?_eq_getElem hb, List.getElem?_eq_getElem hb2]
  rfl

theorem appendOpt_none {l : List α} : appendOpt none l = listToSlot l := by
  cases l with
  | nil => rfl
  | cons x xs => rfl

theorem replicate_getD_none {n b : Nat} :
    (List.replicate n (none : Option α)).getD b none = none := by
  rcases Nat.lt_or_ge b n with hb | hb
  · rw [List.getD_eq_getElem?_getD, List.getElem?_replicate, if_pos hb]
    rfl
  · rw [List.getD_eq_getElem?_getD, List.getElem?_eq_none (by simpa using hb)]
    rfl

theorem step_ok_slots {n : Nat} {pks : List String}
    {acc acc2 : List (Option (List (DeltaFileEnvelope SubTable)))}
    {dfe : DeltaFileEnvelope PaTable} (hlen : acc.length = n)
    (h : hash_bucket_step n pks acc dfe = .ok acc2) :
    acc2.length = n ∧ ∀ b, b < n →
      acc2.getD b none =
        (match contribOf n pks b dfe with
         | none => acc.getD b none
         | some e => some ((acc.getD b none).getD [] ++ [e])) := by
  unfold hash_bucket_step at h
  cases hgb : group_by_pk_hash_bucket dfe.table n pks with
  | error e => rw [hgb] at h; cases h
  | ok slots =>
    rw [hgb] at h
    dsimp only at h
    cases h
    have hslots : slots.length = n := group_by_ok_length hgb
    constructor
    · rw [List.length_zipWith, hlen, hslots, Nat.min_self]
    · intro b hb
      rw [zipWith_getD (x := none) (y := none) (by rw [hlen, hslots])
        (by rw [hlen]; exact hb)]
      unfold contribOf
      rw [hgb]
      dsimp only
      cases hsl : slots.getD b none with
      | none => rfl
      | some st => rfl

theorem foldlME_slots {n : Nat} {pks : List String} :
    ∀ {dfes : List (DeltaFileEnvelope PaTable)}
      {acc out : List (Option (List (DeltaFileEnvelope SubTable)))},
      acc.length = n →
      foldlME (hash_bucket_step n pks) acc dfes = .ok out →
      out.length = n ∧ ∀ b, b < n →
        out.getD b none =
          appendOpt (acc.getD b none) (dfes.filterMap (contribOf n pks b)) := by
  intro dfes
  induction dfes with
  | nil =>
    intro acc out hlen h
    cases h
    refine ⟨hlen, ?_⟩
    intro b _
    rfl
  | cons dfe rest ih =>
    intro acc out hlen h
    unfold foldlME at h
    cases hstep : hash_bucket_step n pks acc dfe with
    | error e => rw [hstep] at h; cases h
    | ok acc1 =>
      rw [hstep] at h
      dsimp only at h
      obtain ⟨hlen1, hslot1⟩ := step_ok_slots hlen hstep
      obtain ⟨hlenO, hslotO⟩ := ih hlen1 h
      refine ⟨hlenO, ?_⟩
      intro b hb
      rw [hslotO b hb, hslot1 b hb]
      cases hc : contribOf n pks b dfe with
      | none => rw [List.filterMap_cons_none hc]
      | some e =>
        rw [List.filterMap_cons_some hc]
        dsimp only
        cases hL : rest.filterMap (contribOf n pks b) with
        | nil => rfl
        | cons x xs =>
          simp [appendOpt, List.append_assoc]

theorem aggregator_slots {download : DownloadFn}
    {manifests : List AnnotatedDeltaManifest} {n : Int}
    {cols pks sks : List String}
    {out : List (Option (List (DeltaFileEnvelope SubTable)))}
    (h : group_file_records_by_pk_hash_bucket download manifests n
      cols pks sks = .ok (some out)) :
    ∃ dfes,
      read_delta_file_envelopes download manifests cols pks sks =
        .ok (some dfes) ∧
      out.length = n.toNat ∧ ∀ b, b < n.toNat →
        out.getD b none =
          listToSlot (dfes.filterMap (contribOf n.toNat pks b)) := by
  unfold group_file_records_by_pk_hash_bucket at h
  cases hread : read_delta_file_envelopes download manifests cols pks sks with
  | error e => rw [hread] at h; cases h
  | ok odfes =>
    rw [hread] at h
    cases odfes with
    | none => cases h
    | some dfes =>
      dsimp only at h
      unfold np_empty_object at h
      by_cases hneg : n < 0
      · rw [if_pos hneg] at h; cases h
      · rw [if_neg hneg] at h
        dsimp only at h
        cases hfold : foldlME (hash_bucket_step n.toNat pks)
            (List.replicate n.toNat none) dfes with
        | error e => rw [hfold] at h; cases h
        | ok out2 =>
          rw [hfold] at h
          dsimp only at h
          cases h
          obtain ⟨hlen, hslots⟩ := foldlME_slots (by simp) hfold
          refine ⟨dfes, rfl, hlen, ?_⟩
          intro b hb
          rw [hslots b hb, replicate_getD_none, appendOpt_none]

theorem bytes_mapME_congr {i : Nat} :
    ∀ {all1 all2 : List (List PyVal)},
      all1.map (List.map pyStr) = all2.map (List.map pyStr) →
      mapME (fun column_fields =>
        match column_fields[i]? with
        | some v => .ok (utf8Bytes (pyStr v))
        | none => .error HBError.IndexError) all1 =
      mapME (fun column_fields =>
        match column_fields[i]? with
        | some v => .ok (utf8Bytes (pyStr v))
        | none => .error HBError.IndexError) all2 := by
  intro all1
  induction all1 with
  | nil =>
    intro all2 h
    cases all2 with
    | nil => rfl
    | cons c2 r2 => simp at h
  | cons c1 r1 ih =>
    intro all2 h
    cases all2 with
    | nil => simp at h
    | cons c2 r2 =>
      simp only [List.map_cons, List.cons.injEq] at h
      obtain ⟨hc, hr⟩ := h
      have hidx : c1[i]?.map pyStr = c2[i]?.map pyStr := by
        rw [← List.getElem?_map, ← List.getElem?_map, hc]
      simp only [mapME]
      cases h1 : c1[i]? with
      | none =>
        cases h2 : c2[i]? with
        | none => rw [ih hr]
        | some v2 => rw [h1, h2] at hidx; cases hidx
      | some v1 =>
        cases h2 : c2[i]? with
        | none => rw [h1, h2] at hidx; cases hidx
        | some v2 =>
          have hv : pyStr v1 = pyStr v2 := by
            rw [h1, h2] at hidx
            exact Option.some.inj hidx
          dsimp only
          rw [hv, ih hr]

theorem hash_generator_congr {all1 all2 : List (List PyVal)}
    (h : all1.map (List.map pyStr) = all2.map (List.map pyStr)) :
    hash_pk_bytes_generator all1 = hash_pk_bytes_generator all2 := by
  cases all1 with
  | nil =>
    cases all2 with
    | nil => rfl
    | cons c2 r2 => simp at h
  | cons c1 r1 =>
    cases all2 with
    | nil => simp at h
    | cons c2 r2 =>
      have hlen : c1.length = c2.length := by
        have hc : c1.map pyStr = c2.map pyStr := by
          simp only [List.map_cons, List.cons.injEq] at h
          exact h.1
        have := congrArg List.length hc
        simpa using this
      simp only [hash_pk_bytes_generator, hlen]
      apply mapME_congr
      intro i _
      rw [bytes_mapME_congr h]

/-! ## The verified claims -/

/-- C1: the claim says a table/annotation count mismatch fails with an
`IntegrityError` and never yields a best-effort partial result.  The code's
guard `assert(len(tables) == len(annotations), "...")` asserts a
parenthesized tuple — always truthy in Python — so it never fires: here the
storage collaborator returns one table against two annotations and the
Envelope Reader succeeds with a silently truncated one-envelope result. -/
theorem read_mismatch_returns_partial :
    read_delta_file_envelopes dlOneTable [admAB] ["k", "v"] ["k"] [] =
      .ok (some [{ stream_position := 10, file_index := 0,
                   delta_type := DeltaType.INSERT, table := tblB }]) := by
  rfl

/-- C2: a table with a null in any (present) primary-key column makes the
partitioner fail with `MissingPrimaryKeyValue`; the error is raised by the
null-free column conversion, which the code runs before the digest
generator is built, so no digest is computed and no row is assigned a
bucket (the call returns no bucket array at all). -/
theorem group_by_pk_hash_bucket_null_rejection (t : PaTable) (n : Nat)
    (pks : List String)
    (hcols : ∀ pk ∈ pks, ∃ c, t.getColumn pk = some c)
    (hnull : ∃ pk ∈ pks, ∃ c, t.getColumn pk = some c ∧
      (none : Option PyVal) ∈ c) :
    group_by_pk_hash_bucket t n pks = .error HBError.MissingPrimaryKeyValue := by
  unfold group_by_pk_hash_bucket
  rw [extract_error_null hcols hnull]

/-- Witness for C2: the concrete table `tblNull` with a null in column
`k` is rejected with `MissingPrimaryKeyValue`. -/
theorem group_by_pk_hash_bucket_null_rejection_witness :
    group_by_pk_hash_bucket tblNull 4 ["k"] =
      .error HBError.MissingPrimaryKeyValue := by
  apply group_by_pk_hash_bucket_null_rejection
  · intro pk hpk
    rw [List.mem_singleton] at hpk
    subst hpk
    exact ⟨[some (PyVal.int 1), none], rfl⟩
  · exact ⟨"k", List.mem_singleton.mpr rfl,
      [some (PyVal.int 1), none], rfl, by decide⟩

/-- C3 counterexample: the claim says every invocation with
`num_buckets ≤ 0` or an empty primary-key list is rejected with an
`InvalidArgument` error before any I/O or computation.  Here the task entry
point is invoked with `num_buckets = 0` AND an empty primary-key list, yet
it completes successfully (with the empty manifest list it hands the
no-data marker straight to the group assembler) — no `InvalidArgument`
rejection exists anywhere in the stage. -/
theorem hash_bucket_invalid_args_counterexample :
    hash_bucket stubAssembler dlAB [] [] [] [] 0 0 = .ok ((), ()) := by
  rfl

/-- C3 (amended): the stage performs no validation of `num_buckets` or the
primary-key list.  For every `num_buckets` and `primary_keys` — including
`num_buckets ≤ 0` and `primary_keys = []` — an invocation on an empty
manifest list runs to completion, handing the assembler the no-data
marker; invalid arguments only surface later, as downstream errors, after
the storage download has already been performed. -/
theorem hash_bucket_no_argument_validation {α β : Type}
    (asm : AssemblerFn α β) (download : DownloadFn)
    (column_names primary_keys : List String)
    (sort_keys : List (String × String)) (num_buckets num_groups : Int) :
    hash_bucket asm download [] column_names primary_keys sort_keys
        num_buckets num_groups =
      .ok (asm none num_buckets num_groups) := by
  rfl

/-- C4: on any non-empty list of equal-length primary-key columns, the
digest generator yields exactly one digest per row, in row order: row `i`'s
digest is SHA-1 applied to the UTF-8 encodings of the values' string
representations, taken in the caller-specified column order and joined
with the fixed multi-byte delimiter `_PK_BYTES_DELIMITER`. -/
theorem hash_pk_bytes_generator_digest_algorithm
    (all_column_fields : List (List PyVal)) (m : Nat)
    (h0 : all_column_fields ≠ [])
    (hlen : ∀ c ∈ all_column_fields, c.length = m) :
    hash_pk_bytes_generator all_column_fields =
      .ok ((List.range m).map (fun i =>
        sha1_digest (List.intercalate PK_BYTES_DELIMITER
          (all_column_fields.map (fun column_fields =>
            utf8Bytes (pyStr (column_fields.getD i (PyVal.str "")))))))) :=
  hash_generator_rows h0 hlen

/-- Witness for C4: the two-column one-row input `[[1], ["x"]]`. -/
theorem hash_pk_bytes_generator_digest_algorithm_witness :
    hash_pk_bytes_generator [[PyVal.int 1], [PyVal.str "x"]] =
      .ok ((List.range 1).map (fun i =>
        sha1_digest (List.intercalate PK_BYTES_DELIMITER
          ([[PyVal.int 1], [PyVal.str "x"]].map (fun column_fields =>
            utf8Bytes (pyStr (column_fields.getD i (PyVal.str "")))))))) :=
  hash_pk_bytes_generator_digest_algorithm [[PyVal.int 1], [PyVal.str "x"]] 1
    (by decide) (by decide)

/-- C5: bucket stability.  For two partitioner runs with the same
primary-key list and the same `num_buckets`, any two rows (of possibly
different tables) whose primary-key string tuples agree are assigned to
exactly the same buckets: row `i1` lands in slot `b` of the first run if
and only if row `i2` lands in slot `b` of the second.  Determinism of a
single run is the special case `t1 = t2`, `i1 = i2`. -/
theorem pk_hash_bucket_stability
    (t1 t2 : PaTable) (pks : List String) (n : Nat)
    (out1 out2 : List (Option SubTable)) (i1 i2 : Nat)
    (hwf1 : t1.wf) (hwf2 : t2.wf) (hpk : pks ≠ [])
    (h1 : group_by_pk_hash_bucket t1 n pks = .ok out1)
    (h2 : group_by_pk_hash_bucket t2 n pks = .ok out2)
    (hi1 : i1 < t1.numRows) (hi2 : i2 < t2.numRows)
    (heq : pkStrTuple t1 pks i1 = pkStrTuple t2 pks i2) :
    ∀ b, rowBucketIn out1 i1 b ↔ rowBucketIn out2 i2 b := by
  intro b
  rw [rowBucketIn_iff hwf1 hpk h1 hi1 b, rowBucketIn_iff hwf2 hpk h2 hi2 b,
    heq]

/-- Witness for C5: row 0 of `tblA` and row 0 of `tblB` share the primary
key `"a"` and land in the same buckets of two separate runs. -/
theorem pk_hash_bucket_stability_witness :
    group_by_pk_hash_bucket tblA 4 ["k"] = .ok outA ∧
    group_by_pk_hash_bucket tblB 4 ["k"] = .ok outB ∧
    (rowBucketIn outA 0 0 ↔ rowBucketIn outB 0 0) :=
  ⟨by rfl, by rfl,
    pk_hash_bucket_stability tblA tblB ["k"] 4 outA outB 0 0
      (by decide) (by decide) (by decide) (by rfl) (by rfl)
      (by decide) (by decide) (by rfl) 0⟩

/-- C6: row conservation.  Whenever the partitioner succeeds on a
well-formed table, the row counts of its non-empty bucket sub-tables sum
to the table's row count (absent buckets contribute zero). -/
theorem pk_hash_bucket_row_conservation
    (t : PaTable) (n : Nat) (pks : List String)
    (out : List (Option SubTable))
    (hwf : t.wf) (hpk : pks ≠ [])
    (h : group_by_pk_hash_bucket t n pks = .ok out) :
    (out.map bucketRows).sum = t.numRows := by
  obtain ⟨all, hashes, hex, hgen, hn, hout⟩ := group_by_ok_elim h
  subst hout
  have hlenh : hashes.length = t.numRows :=
    hashes_length_eq_numRows hwf hpk hex hgen
  rw [List.map_map]
  have hmap : ∀ b ∈ List.range n,
      (bucketRows ∘ fun b =>
        mkSlot (t.dropCols pks) hashes (bucketIndicesOf hashes n b)) b =
        ((List.range hashes.length).filter
          (fun i => pk_digest_to_hash_bucket (hashes.getD i []) n == b)).length := by
    intro b _
    show bucketRows (mkSlot (t.dropCols pks) hashes
      (bucketIndicesOf hashes n b)) = _
    unfold mkSlot
    by_cases he : (bucketIndicesOf hashes n b).isEmpty
    · rw [if_pos he]
      have he2 := List.isEmpty_iff.mp he
      unfold bucketIndicesOf at he2
      rw [he2]
      rfl
    · rw [if_neg he]
      rfl
  rw [List.map_congr_left hmap, ← hlenh]
  exact count_partition (fun i _ => by
    show pk_digest_to_hash_bucket (hashes.getD i []) n < n
    unfold pk_digest_to_hash_bucket
    exact Nat.mod_lt _ (Nat.pos_of_ne_zero hn))

/-- Witness for C6: the three rows of `tblA` are conserved across the
four bucket slots. -/
theorem pk_hash_bucket_row_conservation_witness :
    group_by_pk_hash_bucket tblA 4 ["k"] = .ok outA ∧
    (outA.map bucketRows).sum = tblA.numRows :=
  ⟨by rfl,
    pk_hash_bucket_row_conservation tblA 4 ["k"] outA (by decide) (by decide)
      (by rfl)⟩

/-- C7: order preservation in the aggregator.  Whenever the aggregator
succeeds with a bucket array, slot `b` equals the input-ordered list of the
envelopes' bucket-`b` contributions: the envelopes are consulted in the
order the Envelope Reader produced them (which follows the supplied
manifests), contributions are appended — never re-sorted — and a bucket
that received no contribution holds the absent marker (`listToSlot` of an
empty contribution list is `none`). -/
theorem aggregator_slot_order_preservation
    (download : DownloadFn) (manifests : List AnnotatedDeltaManifest)
    (n : Int) (cols pks sks : List String)
    (out : List (Option (List (DeltaFileEnvelope SubTable)))) (b : Nat)
    (h : group_file_records_by_pk_hash_bucket download manifests n
      cols pks sks = .ok (some out))
    (hb : b < n.toNat) :
    ∃ dfes,
      read_delta_file_envelopes download manifests cols pks sks =
        .ok (some dfes) ∧
      out.getD b none = listToSlot (dfes.filterMap (contribOf n.toNat pks b)) := by
  obtain ⟨dfes, hread, _, hslots⟩ := aggregator_slots h
  exact ⟨dfes, hread, hslots b hb⟩

/-- Witness for C7: envelope A (`stream_position = 10`) and envelope B
(`stream_position = 20`) both contribute to bucket 0, in that order. -/
theorem aggregator_slot_order_preservation_witness :
    group_file_records_by_pk_hash_bucket dlAB [admAB] 4 ["k", "v"] ["k"] [] =
      .ok (some outAB) ∧
    ∃ dfes,
      read_delta_file_envelopes dlAB [admAB] ["k", "v"] ["k"] [] =
        .ok (some dfes) ∧
      outAB.getD 0 none =
        listToSlot (dfes.filterMap (contribOf (4 : Int).toNat ["k"] 0)) :=
  ⟨by rfl,
    aggregator_slot_order_preservation dlAB [admAB] 4 ["k", "v"] ["k"] []
      outAB 0 (by rfl) (by decide)⟩

/-- C8: provenance preservation.  Every envelope found in a bucket slot of
a successful aggregator run was derived from some input envelope: its
`stream_position`, `file_index` and `delta_type` equal the source
envelope's, and its table is exactly the bucket's sub-table from
partitioning that source envelope's table — only the table field differs. -/
theorem aggregator_provenance_preservation
    (download : DownloadFn) (manifests : List AnnotatedDeltaManifest)
    (n : Int) (cols pks sks : List String)
    (out : List (Option (List (DeltaFileEnvelope SubTable)))) (b : Nat)
    (e : DeltaFileEnvelope SubTable)
    (h : group_file_records_by_pk_hash_bucket download manifests n
      cols pks sks = .ok (some out))
    (he : ∃ l, out.getD b none = some l ∧ e ∈ l) :
    ∃ dfes dfe slots,
      read_delta_file_envelopes download manifests cols pks sks =
        .ok (some dfes) ∧
      dfe ∈ dfes ∧
      e.stream_position = dfe.stream_position ∧
      e.file_index = dfe.file_index ∧
      e.delta_type = dfe.delta_type ∧
      group_by_pk_hash_bucket dfe.table n.toNat pks = .ok slots ∧
      slots.getD b none = some e.table := by
  obtain ⟨dfes, hread, hlen, hslots⟩ := aggregator_slots h
  obtain ⟨l, hl, hel⟩ := he
  have hb : b < n.toNat := by
    rcases Nat.lt_or_ge b n.toNat with hb | hb
    · exact hb
    · rw [List.getD_eq_getElem?_getD,
        List.getElem?_eq_none (by rw [hlen]; exact hb)] at hl
      cases hl
  have hslot := hslots b hb
  rw [hl] at hslot
  unfold listToSlot at hslot
  by_cases hemp : (dfes.filterMap (contribOf n.toNat pks b)).isEmpty
  · rw [if_pos hemp] at hslot
    cases hslot
  · rw [if_neg hemp] at hslot
    cases hslot
    obtain ⟨dfe, hdfe, hc⟩ := List.mem_filterMap.mp hel
    unfold contribOf at hc
    cases hgb : group_by_pk_hash_bucket dfe.table n.toNat pks with
    | error err => rw [hgb] at hc; cases hc
    | ok slots =>
      rw [hgb] at hc
      dsimp only at hc
      obtain ⟨st, hst, hmk⟩ := Option.map_eq_some'.mp hc
      subst hmk
      exact ⟨dfes, dfe, slots, hread, hdfe, rfl, rfl, rfl, hgb, hst⟩

/-- Witness for C8: the first envelope of bucket 0 in the concrete
aggregated run carries the provenance of a source envelope. -/
theorem aggregator_provenance_preservation_witness :
    ∃ dfes dfe slots,
      read_delta_file_envelopes dlAB [admAB] ["k", "v"] ["k"] [] =
        .ok (some dfes) ∧
      dfe ∈ dfes ∧
      (((outAB.getD 0 none).getD []).getD 0 default).stream_position =
        dfe.stream_position ∧
      (((outAB.getD 0 none).getD []).getD 0 default).file_index =
        dfe.file_index ∧
      (((outAB.getD 0 none).getD []).getD 0 default).delta_type =
        dfe.delta_type ∧
      group_by_pk_hash_bucket dfe.table (4 : Int).toNat ["k"] = .ok slots ∧
      slots.getD 0 none =
        some (((outAB.getD 0 none).getD []).getD 0 default).table :=
  aggregator_provenance_preservation dlAB [admAB] 4 ["k", "v"] ["k"] []
    outAB 0 (((outAB.getD 0 none).getD []).getD 0 default) (by rfl)
    ⟨(outAB.getD 0 none).getD [], by rfl, by decide⟩

/-- C9: an empty annotated-manifest list makes both the Envelope Reader
and the Cross-Envelope Aggregator return the explicit no-data result
(`none`) — a value distinct from every `num_buckets`-slot array, including
an all-empty one. -/
theorem empty_manifests_no_data_result (download : DownloadFn)
    (column_names primary_keys sort_key_names : List String) (n : Int) :
    read_delta_file_envelopes download [] column_names primary_keys
        sort_key_names = .ok none ∧
    group_file_records_by_pk_hash_bucket download [] n column_names
        primary_keys sort_key_names = .ok none :=
  ⟨rfl, rfl⟩

/-- C10: the digest of a row depends only on the tuple of string
representations of its primary-key values: if two column sets agree after
`str(...)` is applied cell-wise, the generated digests — and hence the
bucket assignments for any fixed `num_buckets` — coincide (e.g. the
integer `1` and the string `"1"` digest identically). -/
theorem digest_depends_only_on_str_tuple
    (all1 all2 : List (List PyVal)) (num_buckets : Nat)
    (heq : all1.map (List.map pyStr) = all2.map (List.map pyStr)) :
    hash_pk_bytes_generator all1 = hash_pk_bytes_generator all2 ∧
    (hash_pk_bytes_generator all1).map (fun hashes =>
        hashes.map (fun d => pk_digest_to_hash_bucket d num_buckets)) =
      (hash_pk_bytes_generator all2).map (fun hashes =>
        hashes.map (fun d => pk_digest_to_hash_bucket d num_buckets)) := by
  have h := hash_generator_congr heq
  exact ⟨h, by rw [h]⟩

/-- Witness for C10: the integer key `1` and the string key `"1"` produce
identical digests. -/
theorem digest_depends_only_on_str_tuple_witness :
    hash_pk_bytes_generator [[PyVal.int 1]] =
      hash_pk_bytes_generator [[PyVal.str "1"]] :=
  (digest_depends_only_on_str_tuple [[PyVal.int 1]] [[PyVal.str "1"]] 4
    (by decide)).1
